import Mathlib

/-!
Verification of the `AsyncQueue` bounded-concurrency task scheduler
(`src/AsyncQueue.ts`).

The scheduler is embedded shallowly as a labelled transition system.
JavaScript's single-threaded event loop lets us treat every synchronous
stretch of code as one atomic step; the asynchronous suspension points of
the implementation become explicit state:

* `await task.fn()` suspends an `execute` invocation — such invocations
  live in `awaiting`, and the environment event `Ev.fnDone i ok` settles
  the i-th one with success (`ok = true`) or failure;
* `setTimeout(() => execute(attempt + 1), retryDelay)` registers a pending
  callback — these live in `timers`, fired by the event `Ev.timerFire i`.

Promise settlement (`task.resolve` / `task.reject`) is recorded in
`settled`, keyed by a per-task serial number `tid` standing for the task's
completion handle.  `fnCalls` is a ghost counter incremented exactly when
the implementation invokes `task.fn()` (i.e. whenever an `execute`
invocation passes the `canceled` check and awaits the work).

Two JavaScript facts matter for fidelity and are modelled carefully:

1. a `return` inside `catch` does NOT skip the `finally` block, so the
   cleanup (`running.delete`, `runningCount--`, `this.schedule()`) runs on
   the retry path too;
2. when `schedule` pops a task whose `canceled` flag is already `true`,
   the whole `execute` body (throw, catch, finally, nested `schedule()`)
   runs synchronously inside the dispatch loop.  The nested `schedule()`
   call re-runs the same loop with the same guard, so it is equivalent to
   simply continuing the outer loop, which is how `scheduleLoop` models it.

Once a task object has been popped from `queue` it is unreachable from
`cancelTask` (which scans only `queue`), so its `canceled` flag is frozen
from that point on; the model therefore stores the task (with its flag)
inside the `awaiting` / `timers` entries.
-/

set_option autoImplicit false

namespace AsyncQueue

/-- Outcome recorded when a task's completion promise settles:
`ok` for `task.resolve(result)`, `fnErr` for `task.reject` with the work's
own error, `cancelErr` for `task.reject` with the synthetic
`Error("Task canceled")`. -/
inductive SRes where
  | ok
  | fnErr
  | cancelErr
deriving DecidableEq, Repr

/-- One task record (`Task` in `types.ts`).  `tid` is a model-side serial
number identifying the completion promise returned by `addTask`; the
implementation's `fn` / `resolve` / `reject` closures are represented by
the environment events and the `settled` log. -/
structure Task where
  id : String
  priority : Int
  retries : Nat
  retryDelay : Nat
  canceled : Bool
  tid : Nat
deriving DecidableEq, Repr

/-- `Set.add`: a JavaScript `Set` keeps insertion order and ignores
re-insertion of a present element. -/
def setAdd (s : List String) (x : String) : List String :=
  if x ∈ s then s else s ++ [x]

/-- `Set.delete`: removes the element if present (elements are unique). -/
def setDelete (s : List String) (x : String) : List String :=
  s.filter (fun y => y ≠ x)

/-- Whole scheduler state: the fields of the `AsyncQueue` class plus the
reified asynchronous continuations (`awaiting`, `timers`), the settlement
log, the fresh-serial counter and the ghost work-invocation counter. -/
structure QState where
  concurrency : Int
  autoRun : Bool
  queue : List Task
  running : List String
  runningCount : Int
  paused : Bool
  awaiting : List (Task × Nat)
  timers : List (Task × Nat)
  settled : List (Nat × SRes)
  nextTid : Nat
  fnCalls : Nat
deriving DecidableEq, Repr

/-- The tail of one `execute(attempt)` invocation once the outcome of the
attempt is known: `none` means the `canceled` check threw (the work was
never invoked), `some true` / `some false` mean `task.fn()` settled with
success / failure.  Mirrors the `try/catch/finally` of `execute`:
the `catch` retries via `setTimeout` when `attempt < task.retries` and
otherwise rejects; the `finally` ALWAYS removes the id from `running`,
decrements `runningCount` — also on the retry path, because `return`
inside `catch` does not skip `finally`.  The trailing `this.schedule()`
of the `finally` is applied by each caller of this function. -/
def execTail (s : QState) (t : Task) (attempt : Nat) (outcome : Option Bool) : QState :=
  let s1 :=
    match outcome with
    | some true => { s with settled := s.settled ++ [(t.tid, SRes.ok)] }
    | some false =>
        if attempt < t.retries then
          { s with timers := s.timers ++ [(t, attempt + 1)] }
        else
          { s with settled := s.settled ++ [(t.tid, SRes.fnErr)] }
    | none =>
        if attempt < t.retries then
          { s with timers := s.timers ++ [(t, attempt + 1)] }
        else
          { s with settled := s.settled ++ [(t.tid, SRes.cancelErr)] }
  { s1 with running := setDelete s1.running t.id,
            runningCount := s1.runningCount - 1 }

/-- The dispatch loop body of `schedule`:
`while (runningCount < concurrency && queue.length > 0)` pops the head,
increments `runningCount`, adds the id to `running`, and calls `execute()`.
For a non-canceled task, `execute` runs synchronously up to
`await task.fn()` and suspends — the entry joins `awaiting` (one real
invocation of the work, counted in `fnCalls`).  For a canceled task the
whole body including `finally` runs synchronously; its nested
`this.schedule()` re-runs this same loop, modelled by continuing it. -/
def scheduleLoop : List Task → QState → QState
  | [], s => { s with queue := [] }
  | t :: rest, s =>
      if s.runningCount < s.concurrency then
        let s1 := { s with runningCount := s.runningCount + 1,
                           running := setAdd s.running t.id }
        if t.canceled then
          scheduleLoop rest (execTail s1 t 0 none)
        else
          scheduleLoop rest
            { s1 with awaiting := s1.awaiting ++ [(t, 0)],
                      fnCalls := s1.fnCalls + 1 }
      else { s with queue := t :: rest }

/-- `private schedule = () => { if (this.paused) return; while ... }`. -/
def schedule (s : QState) : QState :=
  if s.paused then s else scheduleLoop s.queue s

/-- `queue.findIndex(t => t.id === id)` followed by `splice(index, 1)`:
removes the first entry with the given id, if any. -/
def removeFirstById : List Task → String → List Task
  | [], _ => []
  | t :: ts, i => if t.id = i then ts else t :: removeFirstById ts i

/-- `queue.find(t => t.id === id)` followed by `task.canceled = true`:
sets the flag on the first matching entry, if any (in-place mutation of
the shared task object, modelled as updating the list entry). -/
def markCanceledFirst : List Task → String → List Task
  | [], _ => []
  | t :: ts, i =>
      if t.id = i then { t with canceled := true } :: ts
      else t :: markCanceledFirst ts i

/-- `queue.findIndex(t => t.priority < task.priority)` then
`splice(index, 0, task)` (or `push` when no such index): inserts the new
task before the first strictly-lower-priority entry, i.e. after every
entry of greater or equal priority. -/
def insertByPriority : List Task → Task → List Task
  | [], t => [t]
  | x :: xs, t =>
      if x.priority < t.priority then t :: x :: xs
      else x :: insertByPriority xs t

/-- `addTask(fn, opts)`: remove a pending duplicate of the id; if the id is
in `running`, look the "running task" up IN THE QUEUE (`this.queue.find`),
mark it canceled if found, delete the id from `running` and clamp-decrement
`runningCount`; build the fresh task; insert it at its priority position;
dispatch if `autoRun`.  The returned promise is serial `s.nextTid`. -/
def addTask (s : QState) (id : String) (priority : Int)
    (retries retryDelay : Nat) : QState :=
  let s1 := { s with queue := removeFirstById s.queue id }
  let s2 :=
    if id ∈ s1.running then
      { s1 with queue := markCanceledFirst s1.queue id,
                running := setDelete s1.running id,
                runningCount := max 0 (s1.runningCount - 1) }
    else s1
  let t : Task := { id := id, priority := priority, retries := retries,
                    retryDelay := retryDelay, canceled := false,
                    tid := s2.nextTid }
  let s3 := { s2 with queue := insertByPriority s2.queue t,
                      nextTid := s2.nextTid + 1 }
  if s3.autoRun then schedule s3 else s3

/-- `cancelTask(id)`: flag the first pending task with this id. -/
def cancelTask (s : QState) (id : String) : QState :=
  { s with queue := markCanceledFirst s.queue id }

/-- `deleteQueue()`: drop the whole pending list. -/
def deleteQueue (s : QState) : QState :=
  { s with queue := [] }

/-- `cancelAllRunning()`: `running.forEach(id => this.cancelTask(id))`
(note: `cancelTask` scans only the pending queue), then clear the running
set and zero `runningCount`. -/
def cancelAllRunning (s : QState) : QState :=
  let s1 := s.running.foldl (fun acc i => cancelTask acc i) s
  { s1 with running := [], runningCount := 0 }

/-- `run()`: unset `paused` and dispatch. -/
def run (s : QState) : QState :=
  schedule { s with paused := false }

/-- `pause()`. -/
def pause (s : QState) : QState :=
  { s with paused := true }

/-- `getQueued()`: pending ids in queue order. -/
def getQueued (s : QState) : List String :=
  s.queue.map Task.id

/-- `getRunning()`: the running-identity set. -/
def getRunning (s : QState) : List String :=
  s.running

/-- Constructor state: `new AsyncQueue({concurrency, autoRun})`,
`paused = !autoRun`. -/
def initState (concurrency : Int) (autoRun : Bool) : QState :=
  { concurrency := concurrency, autoRun := autoRun, queue := [],
    running := [], runningCount := 0, paused := !autoRun,
    awaiting := [], timers := [], settled := [], nextTid := 0,
    fnCalls := 0 }

/-- Events: the public operations plus the two environment events that
resume suspended `execute` invocations — `fnDone i ok` settles the work
of the i-th `awaiting` entry, `timerFire i` fires the i-th retry timer
(running `execute(attempt)`: the canceled check, then either the full
synchronous failure path or a fresh suspension at `await task.fn()`). -/
inductive Ev where
  | add (id : String) (priority : Int) (retries retryDelay : Nat)
  | cancel (id : String)
  | cancelAll
  | delQueue
  | resume
  | pauseQ
  | fnDone (i : Nat) (ok : Bool)
  | timerFire (i : Nat)
deriving DecidableEq, Repr

/-- One transition.  `none` when the event is not enabled (no such
awaiting entry / timer). -/
def step (s : QState) : Ev → Option QState
  | Ev.add id p r d => some (addTask s id p r d)
  | Ev.cancel id => some (cancelTask s id)
  | Ev.cancelAll => some (cancelAllRunning s)
  | Ev.delQueue => some (deleteQueue s)
  | Ev.resume => some (run s)
  | Ev.pauseQ => some (pause s)
  | Ev.fnDone i ok =>
      match s.awaiting.get? i with
      | some (t, a) =>
          some (schedule
            (execTail { s with awaiting := s.awaiting.eraseIdx i } t a (some ok)))
      | none => none
  | Ev.timerFire i =>
      match s.timers.get? i with
      | some (t, a) =>
          if t.canceled then
            some (schedule
              (execTail { s with timers := s.timers.eraseIdx i } t a none))
          else
            some { s with timers := s.timers.eraseIdx i,
                          awaiting := s.awaiting ++ [(t, a)],
                          fnCalls := s.fnCalls + 1 }
      | none => none

/-- Run a sequence of events from a state. -/
def runTrace (s : QState) : List Ev → Option QState
  | [] => some s
  | e :: es =>
      match step s e with
      | some s' => runTrace s' es
      | none => none

/-- The pending list is sorted by descending priority (ties allowed). -/
def SortedByPriority (q : List Task) : Prop :=
  List.Pairwise (fun a b => b.priority ≤ a.priority) q

/-- Serial numbers of every task object still referenced by the state
(pending, awaiting its work, or waiting on a retry timer). -/
def refTids (s : QState) : List Nat :=
  s.queue.map Task.tid ++ s.awaiting.map (fun p => p.1.tid)
    ++ s.timers.map (fun p => p.1.tid)

/-- Serial numbers whose completion promise has settled. -/
def settledTids (s : QState) : List Nat :=
  s.settled.map Prod.fst

/-- Serial `x` is dead in state `s`: no live task object carries it, its
promise has not settled, and no future task will be given it. -/
def TidFresh (x : Nat) (s : QState) : Prop :=
  x ∉ refTids s ∧ x ∉ settledTids s ∧ x < s.nextTid

/-- Event chain for a running task whose work fails on every attempt:
`k` further attempts remain; each non-final failure schedules a retry
timer which then fires; the final failure settles the promise. -/
def failChain : Nat → List Ev
  | 0 => [Ev.fnDone 0 false]
  | k + 1 => Ev.fnDone 0 false :: Ev.timerFire 0 :: failChain k

/-- Same chain stopped just before the last failure settles. -/
def failChainButLast : Nat → List Ev
  | 0 => []
  | k + 1 => Ev.fnDone 0 false :: Ev.timerFire 0 :: failChainButLast k

/-- Submit one task with retry budget `r` and let its work fail on every
attempt. -/
def failureTrace (r : Nat) : List Ev :=
  Ev.add "a" 0 r 10 :: failChain r

/-- The same scenario stopped just before the final failure. -/
def failureTraceButLast (r : Nat) : List Ev :=
  Ev.add "a" 0 r 10 :: failChainButLast r

/-- Fire the single pending retry timer `k` times. -/
def cancelChain : Nat → List Ev
  | 0 => []
  | k + 1 => Ev.timerFire 0 :: cancelChain k

/-- Submit one task with retry budget `r` to a paused queue, cancel it
while pending, resume, then fire every retry timer the implementation
schedules for it. -/
def cancelPendingTrace (r : Nat) : List Ev :=
  Ev.add "a" 0 r 10 :: Ev.cancel "a" :: Ev.resume :: cancelChain r

/-- The §8 priority example: priorities [0, 5, 2, 5] submitted as
identities A, B, C, D into a paused single-slot queue. -/
def prioAdds : List Ev :=
  [Ev.add "A" 0 0 10, Ev.add "B" 5 0 10, Ev.add "C" 2 0 10,
   Ev.add "D" 5 0 10]

/-- Membership in the priority-sorted insertion. -/
theorem insertByPriority_mem (q : List Task) (t u : Task) :
    u ∈ insertByPriority q t ↔ u = t ∨ u ∈ q := by
  induction q with
  | nil => simp [insertByPriority]
  | cons x xs ih =>
      simp only [insertByPriority]
      split
      · simp [List.mem_cons, or_left_comm, or_comm]
      · simp only [List.mem_cons, ih, or_left_comm]

/-- `addTask`'s scan-and-splice keeps the pending list sorted by
descending priority. -/
theorem insertByPriority_sorted (q : List Task) (t : Task)
    (h : SortedByPriority q) : SortedByPriority (insertByPriority q t) := by
  induction q with
  | nil => simp [insertByPriority, SortedByPriority]
  | cons x xs ih =>
      rcases List.pairwise_cons.mp h with ⟨hx, hxs⟩
      simp only [insertByPriority]
      split
      case isTrue hlt =>
          refine List.pairwise_cons.mpr ⟨?_, h⟩
          intro u hu
          rcases List.mem_cons.mp hu with rfl | hu
          · exact le_of_lt hlt
          · exact le_trans (hx u hu) (le_of_lt hlt)
      case isFalse hge =>
          refine List.pairwise_cons.mpr ⟨?_, ih hxs⟩
          intro u hu
          rcases (insertByPriority_mem xs t u).mp hu with rfl | hu
          · exact not_lt.mp hge
          · exact hx u hu

/-- The new task lands after every pending entry of greater-or-equal
priority and before the rest: stable insertion, ties keep prior order. -/
theorem insertByPriority_stable (q : List Task) (t : Task) :
    insertByPriority q t =
      q.takeWhile (fun x => !decide (x.priority < t.priority)) ++
        t :: q.dropWhile (fun x => !decide (x.priority < t.priority)) := by
  induction q with
  | nil => rfl
  | cons x xs ih =>
      simp only [insertByPriority, List.takeWhile_cons, List.dropWhile_cons]
      by_cases hx : x.priority < t.priority
      · simp [hx]
      · simp [hx, ih]

/-- Unfold one enabled event of a trace. -/
theorem runTrace_cons (s s1 : QState) (e : Ev) (es : List Ev)
    (h : step s e = some s1) : runTrace s (e :: es) = runTrace s1 es := by
  simp [runTrace, h]

theorem queue_nil_eta (s : QState) (h : s.queue = []) :
    ({ s with queue := [] } : QState) = s := by
  cases s
  simp_all

/-- Dispatch is a no-op on an empty pending list. -/
theorem schedule_queue_nil (s : QState) (h : s.queue = []) :
    schedule s = s := by
  unfold schedule
  rw [h]
  split
  · rfl
  · exact queue_nil_eta s h

/-- `fnDone 0` on a single awaiting entry. -/
theorem step_fnDone_cons (s : QState) (t : Task) (a : Nat) (ok : Bool)
    (h : s.awaiting = [(t, a)]) :
    step s (Ev.fnDone 0 ok) =
      some (schedule (execTail { s with awaiting := [] } t a (some ok))) := by
  simp [step, h, List.eraseIdx, List.get?]

/-- `timerFire 0` on a single pending timer of a canceled task: the whole
`execute` body runs, throwing at the canceled check. -/
theorem step_timer_canceled (s : QState) (t : Task) (a : Nat)
    (h : s.timers = [(t, a)]) (hc : t.canceled = true) :
    step s (Ev.timerFire 0) =
      some (schedule (execTail { s with timers := [] } t a none)) := by
  simp [step, h, hc, List.eraseIdx, List.get?]

/-- `timerFire 0` on a single pending timer of a live task: `execute`
passes the canceled check and suspends at `await task.fn()`. -/
theorem step_timer_live (s : QState) (t : Task) (a : Nat)
    (h : s.timers = [(t, a)]) (hc : t.canceled = false) :
    step s (Ev.timerFire 0) =
      some { s with timers := [],
                    awaiting := s.awaiting ++ [(t, a)],
                    fnCalls := s.fnCalls + 1 } := by
  simp [step, h, hc, List.eraseIdx, List.get?]

/-- Completion of the always-failing retry chain: from a state whose only
activity is one awaiting attempt `a` of a live task with `k` retries left
(`retries = a + k`), the chain of `k` fail/retry rounds plus the final
failure settles the promise with the work's error and invokes the work
`k` more times. -/
theorem failChain_spec (k : Nat) :
    ∀ (t : Task) (co : Int) (ar : Bool) (rl : List String) (rc : Int)
      (p : Bool) (se : List (Nat × SRes)) (nt fc a : Nat),
      t.canceled = false → t.retries = a + k →
      ∃ s', runTrace ⟨co, ar, [], rl, rc, p, [(t, a)], [], se, nt, fc⟩
          (failChain k) = some s' ∧
        s'.settled = se ++ [(t.tid, SRes.fnErr)] ∧ s'.fnCalls = fc + k := by
  induction k with
  | zero =>
      intro t co ar rl rc p se nt fc a hc hr
      rw [Nat.add_zero] at hr
      simp only [failChain]
      rw [runTrace_cons _ _ _ _
        (step_fnDone_cons ⟨co, ar, [], rl, rc, p, [(t, a)], [], se, nt, fc⟩
          t a false rfl)]
      rw [schedule_queue_nil _ (by simp [execTail, hr])]
      refine ⟨_, rfl, ?_, ?_⟩
      · simp [execTail, hr]
      · simp [execTail, hr]
  | succ k ih =>
      intro t co ar rl rc p se nt fc a hc hr
      have hlt : a < t.retries := by omega
      simp only [failChain]
      rw [runTrace_cons _ _ _ _
        (step_fnDone_cons ⟨co, ar, [], rl, rc, p, [(t, a)], [], se, nt, fc⟩
          t a false rfl)]
      have h2 : execTail
          ({ (⟨co, ar, [], rl, rc, p, [(t, a)], [], se, nt, fc⟩ : QState)
              with awaiting := [] }) t a (some false) =
          ⟨co, ar, [], setDelete rl t.id, rc - 1, p, [], [(t, a + 1)],
            se, nt, fc⟩ := by
        simp [execTail, hlt]
      rw [h2, schedule_queue_nil _ rfl]
      rw [runTrace_cons _ _ _ _
        (step_timer_live ⟨co, ar, [], setDelete rl t.id, rc - 1, p, [],
          [(t, a + 1)], se, nt, fc⟩ t (a + 1) rfl hc)]
      obtain ⟨s', hrun, hset, hfc⟩ :=
        ih t co ar (setDelete rl t.id) (rc - 1) p se nt (fc + 1) (a + 1)
          hc (by omega)
      exact ⟨s', hrun, hset, by omega⟩

/-- The same chain stopped before the final failure: the promise is still
unsettled although the work has already been invoked `k` more times and
attempt `a + k` is in flight. -/
theorem failChainButLast_spec (k : Nat) :
    ∀ (t : Task) (co : Int) (ar : Bool) (rl : List String) (rc : Int)
      (p : Bool) (se : List (Nat × SRes)) (nt fc a : Nat),
      t.canceled = false → t.retries = a + k →
      ∃ s', runTrace ⟨co, ar, [], rl, rc, p, [(t, a)], [], se, nt, fc⟩
          (failChainButLast k) = some s' ∧
        s'.settled = se ∧ s'.fnCalls = fc + k := by
  induction k with
  | zero =>
      intro t co ar rl rc p se nt fc a hc hr
      exact ⟨_, rfl, rfl, rfl⟩
  | succ k ih =>
      intro t co ar rl rc p se nt fc a hc hr
      have hlt : a < t.retries := by omega
      simp only [failChainButLast]
      rw [runTrace_cons _ _ _ _
        (step_fnDone_cons ⟨co, ar, [], rl, rc, p, [(t, a)], [], se, nt, fc⟩
          t a false rfl)]
      have h2 : execTail
          ({ (⟨co, ar, [], rl, rc, p, [(t, a)], [], se, nt, fc⟩ : QState)
              with awaiting := [] }) t a (some false) =
          ⟨co, ar, [], setDelete rl t.id, rc - 1, p, [], [(t, a + 1)],
            se, nt, fc⟩ := by
        simp [execTail, hlt]
      rw [h2, schedule_queue_nil _ rfl]
      rw [runTrace_cons _ _ _ _
        (step_timer_live ⟨co, ar, [], setDelete rl t.id, rc - 1, p, [],
          [(t, a + 1)], se, nt, fc⟩ t (a + 1) rfl hc)]
      obtain ⟨s', hrun, hset, hfc⟩ :=
        ih t co ar (setDelete rl t.id) (rc - 1) p se nt (fc + 1) (a + 1)
          hc (by omega)
      exact ⟨s', hrun, hset, by omega⟩

/-- Retry chain of a task whose `canceled` flag is set: each timer fire
re-runs the cancellation check (never the work), scheduling another timer
while retries remain; the last check rejects with the cancellation error.
From one pending timer at attempt `a` with `retries = a + k`, `k + 1`
fires settle the promise without ever invoking the work. -/
theorem cancelChain_spec (k : Nat) :
    ∀ (t : Task) (co : Int) (ar : Bool) (rl : List String) (rc : Int)
      (p : Bool) (se : List (Nat × SRes)) (nt fc a : Nat),
      t.canceled = true → t.retries = a + k →
      ∃ s', runTrace ⟨co, ar, [], rl, rc, p, [], [(t, a)], se, nt, fc⟩
          (cancelChain (k + 1)) = some s' ∧
        s'.settled = se ++ [(t.tid, SRes.cancelErr)] ∧ s'.fnCalls = fc := by
  induction k with
  | zero =>
      intro t co ar rl rc p se nt fc a hc hr
      rw [Nat.add_zero] at hr
      simp only [cancelChain]
      rw [runTrace_cons _ _ _ _
        (step_timer_canceled ⟨co, ar, [], rl, rc, p, [], [(t, a)], se, nt, fc⟩
          t a rfl hc)]
      rw [schedule_queue_nil _ (by simp [execTail, hr])]
      refine ⟨_, rfl, ?_, ?_⟩
      · simp [execTail, hr]
      · simp [execTail, hr]
  | succ k ih =>
      intro t co ar rl rc p se nt fc a hc hr
      have hlt : a < t.retries := by omega
      simp only [cancelChain]
      rw [runTrace_cons _ _ _ _
        (step_timer_canceled ⟨co, ar, [], rl, rc, p, [], [(t, a)], se, nt, fc⟩
          t a rfl hc)]
      have h2 : execTail
          ({ (⟨co, ar, [], rl, rc, p, [], [(t, a)], se, nt, fc⟩ : QState)
              with timers := [] }) t a none =
          ⟨co, ar, [], setDelete rl t.id, rc - 1, p, [], [(t, a + 1)],
            se, nt, fc⟩ := by
        simp [execTail, hlt]
      rw [h2, schedule_queue_nil _ rfl]
      obtain ⟨s', hrun, hset, hfc⟩ :=
        ih t co ar (setDelete rl t.id) (rc - 1) p se nt fc (a + 1)
          hc (by omega)
      exact ⟨s', hrun, hset, hfc⟩

/-- C1: the claimed invariant `runningCount = |running| ∧ 0 ≤ runningCount ≤
concurrency` is NOT preserved by the task-completion steps: submit one task
with `retries = 1` to a fresh `concurrency = 1` queue and let its work fail
twice.  Because the `finally` block of `execute` also runs on the retry path,
`runningCount` is decremented once per attempt and ends at `-1` while the
running set is empty — `runningCount < 0` and `runningCount ≠ |running|`. -/
theorem C1_runningCount_invariant_fails :
    (runTrace (initState 1 true)
        [Ev.add "a" 0 1 10, Ev.fnDone 0 false, Ev.timerFire 0,
         Ev.fnDone 0 false]).map
      (fun s => (s.runningCount, s.running.length)) = some (-1, 0) := by
  decide

/-- C2: capacity is NOT held across retries.  After the first failed attempt
of a task with `retries = 1` (retry timer pending, promise unsettled), the
code has already removed the identity from the running set, decremented
`runningCount` back to `0`, and re-invoked the dispatch loop — the `return`
in the `catch` block does not skip the `finally` cleanup. -/
theorem C2_retry_frees_capacity :
    (runTrace (initState 1 true) [Ev.add "a" 0 1 10, Ev.fnDone 0 false]).map
      (fun s => (s.running, s.runningCount, s.timers.length, s.settled)) =
      some ([], 0, 1, []) := by
  decide

/-- C4: a task found canceled at the start of an attempt is NOT rejected
immediately when retries remain.  A pending task with `retries = 1` is
canceled and then dispatched: the cancellation throw is caught by the same
`catch` that implements retry, so a retry timer is scheduled
(`timers.length = 1`), the promise is not settled, and the work was never
invoked; rejection only comes after the retry budget is exhausted. -/
theorem C4_canceled_task_is_retried :
    ((runTrace (initState 1 false)
        [Ev.add "a" 0 1 10, Ev.cancel "a", Ev.resume]).map
      (fun s => (s.settled, s.timers.length, s.fnCalls)) =
      some ([], 1, 0)) ∧
    ((runTrace (initState 1 false)
        [Ev.add "a" 0 1 10, Ev.cancel "a", Ev.resume, Ev.timerFire 0]).map
      (fun s => (s.settled, s.fnCalls)) =
      some ([(0, SRes.cancelErr)], 0)) := by
  decide

/-- C6: `cancelAllRunning()` does NOT set `canceled = true` on the running
tasks — it delegates to `cancelTask`, which scans only the pending queue,
where running tasks no longer live.  With one task running: after the call
the reported running set is empty and `runningCount` is already zeroed
(capacity freed immediately, not on natural finish), yet the running task's
flag is still `false`; when its work later succeeds it resolves normally
(no cancellation), and the extra `finally` decrement drives `runningCount`
to `-1`. -/
theorem C6_cancelAllRunning_sets_no_flag :
    ((runTrace (initState 1 true) [Ev.add "a" 0 0 10, Ev.cancelAll]).map
      (fun s => (s.running, s.runningCount, s.settled)) =
      some ([], 0, [])) ∧
    ((runTrace (initState 1 true) [Ev.add "a" 0 0 10, Ev.cancelAll]).map
      (fun s => s.awaiting.map (fun p => p.1.canceled)) =
      some [false]) ∧
    ((runTrace (initState 1 true)
        [Ev.add "a" 0 0 10, Ev.cancelAll, Ev.fnDone 0 true]).map
      (fun s => (s.settled, s.runningCount)) =
      some ([(0, SRes.ok)], -1)) := by
  exact ⟨by decide, by decide, by decide⟩

/-- C7: submitting with the identity of a currently running task does NOT
mark that task canceled: `addTask` looks the running task up in
`this.queue`, where it no longer is (and the pending duplicate was just
spliced out), so the lookup always misses.  After `addTask "a"` twice, both
the original execution and the new one are in flight with
`canceled = false`. -/
theorem C7_resubmit_running_does_not_cancel :
    (runTrace (initState 1 true)
        [Ev.add "a" 0 0 10, Ev.add "a" 0 0 10]).map
      (fun s => (s.awaiting.map (fun p => (p.1.tid, p.1.canceled)),
                 s.running)) =
      some ([(0, false), (1, false)], ["a"]) := by
  decide

/-- C3: the pending list is kept sorted by descending priority with stable
ties — `addTask` inserts before the first strictly-lower-priority entry,
i.e. after every existing greater-or-equal-priority entry — and dispatch
pops the head.  For priorities [0, 5, 2, 5] submitted as A, B, C, D into a
paused `concurrency = 1` queue the pending order is [B, D, C, A], and on
`run()` plus three completions the dispatch order observed through
`getRunning` is B, D, C, A (B, D, C having settled in that order). -/
theorem C3_priority_order :
    (∀ q t, SortedByPriority q → SortedByPriority (insertByPriority q t)) ∧
    (∀ q t, insertByPriority q t =
      q.takeWhile (fun x => !decide (x.priority < t.priority)) ++
        t :: q.dropWhile (fun x => !decide (x.priority < t.priority))) ∧
    ((runTrace (initState 1 false) prioAdds).map getQueued =
      some ["B", "D", "C", "A"]) ∧
    ((runTrace (initState 1 false) (prioAdds ++ [Ev.resume])).map getRunning =
      some ["B"]) ∧
    ((runTrace (initState 1 false)
        (prioAdds ++ [Ev.resume, Ev.fnDone 0 true])).map getRunning =
      some ["D"]) ∧
    ((runTrace (initState 1 false)
        (prioAdds ++ [Ev.resume, Ev.fnDone 0 true, Ev.fnDone 0 true])).map
      getRunning = some ["C"]) ∧
    ((runTrace (initState 1 false)
        (prioAdds ++ [Ev.resume, Ev.fnDone 0 true, Ev.fnDone 0 true,
                      Ev.fnDone 0 true])).map
      (fun s => (getRunning s, settledTids s)) = some (["A"], [1, 3, 2])) :=
  ⟨insertByPriority_sorted, insertByPriority_stable, by decide, by decide,
   by decide, by decide, by decide⟩

/-- C5: a non-canceled task whose work fails on every attempt is rejected
with the work's failure after exactly `retries + 1` invocations of the
work (`fnCalls = r + 1`): each failure with `attempt < retries` schedules
another attempt, and before the final failure the promise is still
unsettled even though all `r + 1` invocations have started. -/
theorem C5_work_fails_every_attempt (r : Nat) :
    ((runTrace (initState 1 true) (failureTrace r)).map
      (fun s => (s.settled, s.fnCalls)) =
      some ([(0, SRes.fnErr)], r + 1)) ∧
    ((runTrace (initState 1 true) (failureTraceButLast r)).map
      (fun s => (s.settled, s.fnCalls)) = some ([], r + 1)) := by
  have h1 : runTrace (initState 1 true) (failureTrace r) =
      runTrace ⟨1, true, [], ["a"], 1, false,
        [(⟨"a", 0, r, 10, false, 0⟩, 0)], [], [], 1, 1⟩ (failChain r) := rfl
  have h1' : runTrace (initState 1 true) (failureTraceButLast r) =
      runTrace ⟨1, true, [], ["a"], 1, false,
        [(⟨"a", 0, r, 10, false, 0⟩, 0)], [], [], 1, 1⟩
        (failChainButLast r) := rfl
  obtain ⟨s', hrun, hset, hfc⟩ :=
    failChain_spec r ⟨"a", 0, r, 10, false, 0⟩ 1 true ["a"] 1 false [] 1 1 0
      rfl (by simp)
  obtain ⟨s2, hrun2, hset2, hfc2⟩ :=
    failChainButLast_spec r ⟨"a", 0, r, 10, false, 0⟩ 1 true ["a"] 1 false
      [] 1 1 0 rfl (by simp)
  constructor
  · rw [h1, hrun]
    simp [hset, hfc, Nat.add_comm]
  · rw [h1', hrun2]
    simp [hset2, hfc2, Nat.add_comm]

/-- `C5_work_fails_every_attempt` at `r = 2`: the §8 retry example —
3 total attempts for `maxRetries = 2`. -/
theorem C5_work_fails_every_attempt_witness :
    ((runTrace (initState 1 true) (failureTrace 2)).map
      (fun s => (s.settled, s.fnCalls)) =
      some ([(0, SRes.fnErr)], 3)) ∧
    ((runTrace (initState 1 true) (failureTraceButLast 2)).map
      (fun s => (s.settled, s.fnCalls)) = some ([], 3)) :=
  C5_work_fails_every_attempt 2

/-- C9: cancelling a pending task makes its promise eventually reject with
the cancellation failure, and its work function is never invoked
(`fnCalls = 0`), for every retry budget `r` — though with `r > 0` the
rejection is deferred through the (buggy) retry chain of cancellation
checks rather than immediate. -/
theorem C9_cancel_pending_rejects (r : Nat) :
    (runTrace (initState 1 false) (cancelPendingTrace r)).map
      (fun s => (s.settled, s.fnCalls)) =
      some ([(0, SRes.cancelErr)], 0) := by
  cases r with
  | zero => decide
  | succ k =>
      have h1 : runTrace (initState 1 false) (cancelPendingTrace (k + 1)) =
          runTrace
            { execTail
                ⟨1, false, [⟨"a", 0, k + 1, 10, true, 0⟩], ["a"], 1, false,
                  [], [], [], 1, 0⟩
                ⟨"a", 0, k + 1, 10, true, 0⟩ 0 none with queue := [] }
            (cancelChain (k + 1)) := rfl
      have h3 : execTail
          ⟨1, false, [⟨"a", 0, k + 1, 10, true, 0⟩], ["a"], 1, false,
            [], [], [], 1, 0⟩
          ⟨"a", 0, k + 1, 10, true, 0⟩ 0 none =
          ⟨1, false, [⟨"a", 0, k + 1, 10, true, 0⟩], [], 0, false, [],
            [(⟨"a", 0, k + 1, 10, true, 0⟩, 1)], [], 1, 0⟩ := by
        simp [execTail, setDelete]
      rw [h1, h3]
      obtain ⟨s', hrun, hset, hfc⟩ :=
        cancelChain_spec k ⟨"a", 0, k + 1, 10, true, 0⟩ 1 false [] 0 false
          [] 1 0 1 rfl (by show k + 1 = 1 + k; omega)
      rw [show ({ (⟨1, false, [⟨"a", 0, k + 1, 10, true, 0⟩], [], 0, false,
          [], [(⟨"a", 0, k + 1, 10, true, 0⟩, 1)], [], 1, 0⟩ : QState)
            with queue := ([] : List Task) } : QState) =
          ⟨1, false, [], [], 0, false, [],
            [(⟨"a", 0, k + 1, 10, true, 0⟩, 1)], [], 1, 0⟩ from rfl]
      rw [hrun]
      simp [hset, hfc]

/-- `C9_cancel_pending_rejects` at `r = 1`. -/
theorem C9_cancel_pending_rejects_witness :
    (runTrace (initState 1 false) (cancelPendingTrace 1)).map
      (fun s => (s.settled, s.fnCalls)) =
      some ([(0, SRes.cancelErr)], 0) :=
  C9_cancel_pending_rejects 1

/-- `execTail` never touches `queue`, `awaiting` or `nextTid`; it may
append one retry timer for its own task and may settle its own task's
promise. -/
theorem execTail_fields (s : QState) (t : Task) (a : Nat) (o : Option Bool) :
    (execTail s t a o).queue = s.queue ∧
    (execTail s t a o).awaiting = s.awaiting ∧
    (execTail s t a o).nextTid = s.nextTid ∧
    ((execTail s t a o).timers = s.timers ∨
      (execTail s t a o).timers = s.timers ++ [(t, a + 1)]) ∧
    ((execTail s t a o).settled = s.settled ∨
      ∃ r, (execTail s t a o).settled = s.settled ++ [(t.tid, r)]) := by
  rcases o with _ | b
  · by_cases h : a < t.retries
    · simp [execTail, h]
    · simp [execTail, h]
  · cases b
    · by_cases h : a < t.retries
      · simp [execTail, h]
      · simp [execTail, h]
    · simp [execTail]

/-- Non-membership in `refTids`, componentwise. -/
theorem refTids_not_mem (S : QState) (x : Nat) :
    x ∉ refTids S ↔ x ∉ S.queue.map Task.tid ∧
      x ∉ S.awaiting.map (fun p => p.1.tid) ∧
      x ∉ S.timers.map (fun p => p.1.tid) := by
  simp only [refTids, List.mem_append]
  tauto

/-- A serial absent from a state and different from the finishing task's
stays absent across `execTail`. -/
theorem execTail_tids (s : QState) (t : Task) (a : Nat) (o : Option Bool)
    (x : Nat) (hx : x ≠ t.tid) (hr : x ∉ refTids s) (hs : x ∉ settledTids s) :
    x ∉ refTids (execTail s t a o) ∧ x ∉ settledTids (execTail s t a o) ∧
      (execTail s t a o).nextTid = s.nextTid := by
  obtain ⟨hq, ha, hn, ht, hse⟩ := execTail_fields s t a o
  rw [refTids_not_mem] at hr ⊢
  refine ⟨⟨by rw [hq]; exact hr.1, by rw [ha]; exact hr.2.1, ?_⟩, ?_, hn⟩
  · rcases ht with ht | ht <;> rw [ht]
    · exact hr.2.2
    · simp only [List.map_append, List.mem_append]
      intro hm
      rcases hm with hm | hm
      · exact hr.2.2 hm
      · simp at hm
        exact hx hm
  · simp only [settledTids] at hs ⊢
    rcases hse with hse | ⟨r, hse⟩ <;> rw [hse]
    · exact hs
    · simp only [List.map_append, List.mem_append]
      intro hm
      rcases hm with hm | hm
      · exact hs hm
      · simp at hm
        exact hx hm

/-- A serial absent from the popped tasks and from the state stays absent
across the dispatch loop, which also leaves `nextTid` unchanged. -/
theorem scheduleLoop_tids (q : List Task) :
    ∀ (s : QState) (x : Nat),
      x ∉ q.map Task.tid → x ∉ refTids s → x ∉ settledTids s →
      x ∉ refTids (scheduleLoop q s) ∧ x ∉ settledTids (scheduleLoop q s) ∧
        (scheduleLoop q s).nextTid = s.nextTid := by
  induction q with
  | nil =>
      intro s x hq hr hs
      refine ⟨?_, hs, rfl⟩
      rw [refTids_not_mem] at hr ⊢
      exact ⟨by simp [scheduleLoop], hr.2.1, hr.2.2⟩
  | cons t rest ih =>
      intro s x hq hr hs
      have hxt : x ≠ t.tid := by
        intro h
        exact hq (by simp [h])
      have hrest : x ∉ rest.map Task.tid := by
        intro h
        exact hq (by simp [h])
      simp only [scheduleLoop]
      split
      · split
        · -- canceled: the whole execute body runs synchronously
          obtain ⟨e1, e2, e3⟩ := execTail_tids
              { s with runningCount := s.runningCount + 1,
                       running := setAdd s.running t.id } t 0 none x hxt hr hs
          obtain ⟨l1, l2, l3⟩ := ih _ x hrest e1 e2
          exact ⟨l1, l2, by rw [l3, e3]⟩
        · -- live: one more awaiting entry, same serials plus `t.tid`
          have hr2 : x ∉ refTids { s with
              runningCount := s.runningCount + 1,
              running := setAdd s.running t.id,
              awaiting := s.awaiting ++ [(t, 0)],
              fnCalls := s.fnCalls + 1 } := by
            rw [refTids_not_mem] at hr ⊢
            refine ⟨hr.1, ?_, hr.2.2⟩
            simp only [List.map_append, List.mem_append]
            intro hm
            rcases hm with hm | hm
            · exact hr.2.1 hm
            · simp at hm
              exact hxt hm
          exact ih _ x hrest hr2 hs
      · refine ⟨?_, hs, rfl⟩
        rw [refTids_not_mem] at hr ⊢
        exact ⟨hq, hr.2.1, hr.2.2⟩

/-- `schedule` version of `scheduleLoop_tids`. -/
theorem schedule_tids (s : QState) (x : Nat)
    (hr : x ∉ refTids s) (hs : x ∉ settledTids s) :
    x ∉ refTids (schedule s) ∧ x ∉ settledTids (schedule s) ∧
      (schedule s).nextTid = s.nextTid := by
  unfold schedule
  split
  · exact ⟨hr, hs, rfl⟩
  · refine scheduleLoop_tids s.queue s x ?_ hr hs
    intro hmem
    exact hr (by simp [refTids, List.mem_append, hmem])

/-- Removing the first id match only shrinks the set of pending serials. -/
theorem removeFirstById_tid (q : List Task) (i : String) (x : Nat)
    (h : x ∉ q.map Task.tid) : x ∉ (removeFirstById q i).map Task.tid := by
  induction q with
  | nil => simp [removeFirstById]
  | cons u us ih =>
      simp only [removeFirstById]
      split
      · intro hm
        exact h (by simp_all)
      · intro hm
        rcases List.mem_cons.mp hm with h1 | h1
        · exact h (by simp_all)
        · exact ih (fun hh => h (by simp_all)) h1

/-- Marking a task canceled changes no serial. -/
theorem markCanceledFirst_map_tid (q : List Task) (i : String) :
    (markCanceledFirst q i).map Task.tid = q.map Task.tid := by
  induction q with
  | nil => rfl
  | cons u us ih =>
      simp only [markCanceledFirst]
      split <;> simp [ih]

/-- Marking a task canceled changes no identity either. -/
theorem markCanceledFirst_map_id (q : List Task) (i : String) :
    (markCanceledFirst q i).map Task.id = q.map Task.id := by
  induction q with
  | nil => rfl
  | cons u us ih =>
      simp only [markCanceledFirst]
      split <;> simp [ih]

/-- The priority insertion only adds the new task's serial. -/
theorem insertByPriority_tid (q : List Task) (t : Task) (x : Nat)
    (hx : x ≠ t.tid) (h : x ∉ q.map Task.tid) :
    x ∉ (insertByPriority q t).map Task.tid := by
  intro hm
  rcases List.mem_map.mp hm with ⟨u, hu, hut⟩
  rcases (insertByPriority_mem q t u).mp hu with rfl | hu
  · exact hx hut.symm
  · exact h (List.mem_map.mpr ⟨u, hu, hut⟩)

/-- `cancelTask` changes no serial bookkeeping at all. -/
theorem cancelTask_tids (s : QState) (i : String) :
    refTids (cancelTask s i) = refTids s ∧
    settledTids (cancelTask s i) = settledTids s ∧
    (cancelTask s i).nextTid = s.nextTid := by
  refine ⟨?_, rfl, rfl⟩
  simp [cancelTask, refTids, markCanceledFirst_map_tid]

/-- Neither does the `forEach` of `cancelAllRunning`. -/
theorem foldl_cancelTask_tids (l : List String) :
    ∀ s : QState,
      refTids (l.foldl (fun acc i => cancelTask acc i) s) = refTids s ∧
      settledTids (l.foldl (fun acc i => cancelTask acc i) s) = settledTids s ∧
      (l.foldl (fun acc i => cancelTask acc i) s).nextTid = s.nextTid := by
  induction l with
  | nil => intro s; exact ⟨rfl, rfl, rfl⟩
  | cons j js ih =>
      intro s
      obtain ⟨h1, h2, h3⟩ := ih (cancelTask s j)
      obtain ⟨g1, g2, g3⟩ := cancelTask_tids s j
      exact ⟨h1.trans g1, h2.trans g2, h3.trans g3⟩

/-- A dead serial stays dead across `schedule`. -/
theorem schedule_tidFresh (s : QState) (x : Nat) (h : TidFresh x s) :
    TidFresh x (schedule s) := by
  obtain ⟨hr, hs, hn⟩ := h
  obtain ⟨h1, h2, h3⟩ := schedule_tids s x hr hs
  exact ⟨h1, h2, by rw [h3]; exact hn⟩

/-- A dead serial stays dead across `addTask`: the new task gets the fresh
serial `nextTid`, which a dead serial is strictly below. -/
theorem addTask_tidFresh (s : QState) (i : String) (pr : Int) (r d : Nat)
    (x : Nat) (h : TidFresh x s) : TidFresh x (addTask s i pr r d) := by
  obtain ⟨hr, hs, hn⟩ := h
  have hq0 : x ∉ s.queue.map Task.tid := fun hm =>
    hr (by simp [refTids, List.mem_append, hm])
  have haw : x ∉ s.awaiting.map (fun p => p.1.tid) := fun hm =>
    hr (by simp [refTids, List.mem_append, hm])
  have hti : x ∉ s.timers.map (fun p => p.1.tid) := fun hm =>
    hr (by simp [refTids, List.mem_append, hm])
  have key : ∀ (Q : List Task), x ∉ Q.map Task.tid → ∀ (R : List String)
      (C : Int),
      TidFresh x
        { s with queue := Q, running := R, runningCount := C,
                 nextTid := s.nextTid + 1 } := by
    intro Q hQ R C
    refine ⟨?_, hs, ?_⟩
    · rw [refTids_not_mem]
      exact ⟨hQ, haw, hti⟩
    · show x < s.nextTid + 1
      omega
  have hQtrue : x ∉ (insertByPriority
      (markCanceledFirst (removeFirstById s.queue i) i)
      ⟨i, pr, r, d, false, s.nextTid⟩).map Task.tid := by
    refine insertByPriority_tid _ _ x (by show x ≠ s.nextTid; omega) ?_
    rw [markCanceledFirst_map_tid]
    exact removeFirstById_tid s.queue i x hq0
  have hQfalse : x ∉ (insertByPriority (removeFirstById s.queue i)
      ⟨i, pr, r, d, false, s.nextTid⟩).map Task.tid := by
    refine insertByPriority_tid _ _ x (by show x ≠ s.nextTid; omega) ?_
    exact removeFirstById_tid s.queue i x hq0
  simp only [addTask]
  split
  · split
    · exact schedule_tidFresh _ x (key _ hQtrue _ _)
    · exact key _ hQtrue _ _
  · split
    · exact schedule_tidFresh _ x (key _ hQfalse _ _)
    · exact key _ hQfalse _ _

/-- A dead serial stays dead and below `nextTid` across every event. -/
theorem step_tidFresh (s s' : QState) (e : Ev) (x : Nat)
    (hst : step s e = some s') (h : TidFresh x s) : TidFresh x s' := by
  obtain ⟨hr, hs, hn⟩ := h
  cases e with
  | add i p r d =>
      cases hst
      exact addTask_tidFresh s i p r d x ⟨hr, hs, hn⟩
  | cancel i =>
      cases hst
      obtain ⟨g1, g2, g3⟩ := cancelTask_tids s i
      exact ⟨by rw [g1]; exact hr, by rw [g2]; exact hs, by rw [g3]; exact hn⟩
  | cancelAll =>
      cases hst
      obtain ⟨g1, g2, g3⟩ := foldl_cancelTask_tids s.running s
      refine ⟨?_, ?_, ?_⟩
      · show x ∉ refTids (s.running.foldl (fun acc i => cancelTask acc i) s)
        rw [g1]
        exact hr
      · show x ∉ settledTids (s.running.foldl (fun acc i => cancelTask acc i) s)
        rw [g2]
        exact hs
      · show x < (s.running.foldl (fun acc i => cancelTask acc i) s).nextTid
        rw [g3]
        exact hn
  | delQueue =>
      cases hst
      refine ⟨?_, hs, hn⟩
      rw [refTids_not_mem] at hr ⊢
      exact ⟨by simp [deleteQueue], hr.2.1, hr.2.2⟩
  | resume =>
      cases hst
      exact schedule_tidFresh _ x ⟨hr, hs, hn⟩
  | pauseQ =>
      cases hst
      exact ⟨hr, hs, hn⟩
  | fnDone idx ok =>
      revert hst
      simp only [step]
      rcases hg : s.awaiting.get? idx with _ | ⟨t, a⟩
      · intro hst
        cases hst
      · have hmem : (t, a) ∈ s.awaiting := List.get?_mem hg
        have hxt : x ≠ t.tid := by
          intro hx
          rw [refTids_not_mem] at hr
          exact hr.2.1 (List.mem_map.mpr ⟨(t, a), hmem, hx.symm⟩)
        have hr1 : x ∉ refTids
            { s with awaiting := s.awaiting.eraseIdx idx } := by
          rw [refTids_not_mem] at hr ⊢
          refine ⟨hr.1, ?_, hr.2.2⟩
          intro hm
          rcases List.mem_map.mp hm with ⟨p, hp, hpt⟩
          exact hr.2.1 (List.mem_map.mpr
            ⟨p, (s.awaiting.eraseIdx_sublist idx).subset hp, hpt⟩)
        intro hst
        cases hst
        obtain ⟨e1, e2, e3⟩ := execTail_tids _ t a (some ok) x hxt hr1 hs
        exact schedule_tidFresh _ x ⟨e1, e2, by rw [e3]; exact hn⟩
  | timerFire idx =>
      revert hst
      simp only [step]
      rcases hg : s.timers.get? idx with _ | ⟨t, a⟩
      · intro hst
        cases hst
      · have hmem : (t, a) ∈ s.timers := List.get?_mem hg
        have hxt : x ≠ t.tid := by
          intro hx
          rw [refTids_not_mem] at hr
          exact hr.2.2 (List.mem_map.mpr ⟨(t, a), hmem, hx.symm⟩)
        have hr1 : x ∉ refTids { s with timers := s.timers.eraseIdx idx } := by
          rw [refTids_not_mem] at hr ⊢
          refine ⟨hr.1, hr.2.1, ?_⟩
          intro hm
          rcases List.mem_map.mp hm with ⟨p, hp, hpt⟩
          exact hr.2.2 (List.mem_map.mpr
            ⟨p, (s.timers.eraseIdx_sublist idx).subset hp, hpt⟩)
        intro hst
        replace hst : (if t.canceled = true then
              some (schedule (execTail
                { s with timers := s.timers.eraseIdx idx } t a none))
            else
              some { s with timers := s.timers.eraseIdx idx,
                            awaiting := s.awaiting ++ [(t, a)],
                            fnCalls := s.fnCalls + 1 }) = some s' := hst
        by_cases hc2 : t.canceled = true
        · rw [if_pos hc2] at hst
          cases hst
          obtain ⟨e1, e2, e3⟩ := execTail_tids _ t a none x hxt hr1 hs
          exact schedule_tidFresh _ x ⟨e1, e2, by rw [e3]; exact hn⟩
        · rw [if_neg hc2] at hst
          cases hst
          refine ⟨?_, hs, hn⟩
          rw [refTids_not_mem] at hr1 hr ⊢
          refine ⟨hr.1, ?_, hr1.2.2⟩
          simp only [List.map_append, List.mem_append]
          intro hm
          rcases hm with hm | hm
          · exact hr.2.1 hm
          · simp at hm
            exact hxt hm

/-- A dead serial stays dead along every trace: in particular its promise
never settles. -/
theorem runTrace_tidFresh (evs : List Ev) :
    ∀ (s s' : QState) (x : Nat),
      runTrace s evs = some s' → TidFresh x s → TidFresh x s' := by
  induction evs with
  | nil =>
      intro s s' x hrun h
      cases hrun
      exact h
  | cons e es ih =>
      intro s s' x hrun h
      revert hrun
      simp only [runTrace]
      rcases hst : step s e with _ | s1
      · intro hrun
        cases hrun
      · intro hrun
        exact ih s1 s' x hrun (step_tidFresh s s1 e x hst h)

/-- The first pending task with the given id — and only it — gets its
`canceled` flag set; everything before it has a different id, everything
else is untouched.  When no pending task matches, nothing changes. -/
theorem markCanceledFirst_split (q : List Task) (i : String) :
    (∃ pre t post, q = pre ++ t :: post ∧ (∀ u ∈ pre, u.id ≠ i) ∧ t.id = i ∧
        markCanceledFirst q i = pre ++ { t with canceled := true } :: post) ∨
      ((∀ u ∈ q, u.id ≠ i) ∧ markCanceledFirst q i = q) := by
  induction q with
  | nil => exact Or.inr ⟨by simp, rfl⟩
  | cons x xs ih =>
      by_cases hx : x.id = i
      · exact Or.inl ⟨[], x, xs, rfl, by simp, hx,
          by simp [markCanceledFirst, hx]⟩
      · rcases ih with ⟨pre, t, post, hq, hpre, ht, hmark⟩ | ⟨hall, hmark⟩
        · refine Or.inl ⟨x :: pre, t, post,
            by rw [hq, List.cons_append], ?_, ht, ?_⟩
          · intro u hu
            rcases List.mem_cons.mp hu with rfl | hu
            · exact hx
            · exact hpre u hu
          · simp only [markCanceledFirst, if_neg hx, hmark, List.cons_append]
        · refine Or.inr ⟨?_, ?_⟩
          · intro u hu
            rcases List.mem_cons.mp hu with rfl | hu
            · exact hx
            · exact hall u hu
          · simp only [markCanceledFirst, if_neg hx, hmark]

/-- C8: submitting with an identity already pending removes the prior
pending entry before inserting the new task: afterwards `getQueued()` has
exactly one entry for that identity — the new occupant (serial 1, not the
displaced serial 0) — and the displaced task's completion is never
settled, along any continuation of the run (its serial can never re-enter
the state, so no settle event can ever mention it). -/
theorem C8_pending_identity_collision :
    ((runTrace (initState 1 false) [Ev.add "a" 0 0 10, Ev.add "a" 0 0 10]).map
      (fun s => (getQueued s, s.queue.map Task.tid, (getQueued s).count "a",
                 settledTids s)) =
      some (["a"], [1], 1, [])) ∧
    (∀ s2 evs s', runTrace (initState 1 false)
        [Ev.add "a" 0 0 10, Ev.add "a" 0 0 10] = some s2 →
      runTrace s2 evs = some s' → 0 ∉ settledTids s') := by
  constructor
  · decide
  · intro s2 evs s' h2 hrun
    have h0 : runTrace (initState 1 false)
        [Ev.add "a" 0 0 10, Ev.add "a" 0 0 10] =
        some ⟨1, false, [⟨"a", 0, 0, 10, false, 1⟩], [], 0, true,
          [], [], [], 2, 0⟩ := by decide
    rw [h0] at h2
    injection h2 with h2
    have hfresh : TidFresh 0 s2 := by
      rw [← h2]
      exact ⟨by decide, by decide, by decide⟩
    exact (runTrace_tidFresh evs s2 s' 0 hrun hfresh).2.1

/-- `C8_pending_identity_collision` applied at the collision state itself
with the empty continuation. -/
theorem C8_pending_identity_collision_witness :
    (0 : Nat) ∉ settledTids
      (⟨1, false, [⟨"a", 0, 0, 10, false, 1⟩], [], 0, true,
        [], [], [], 2, 0⟩ : QState) :=
  C8_pending_identity_collision.2 _ [] _ (by decide) rfl

/-- C10: `cancelTask(id)` mutates nothing except possibly the `canceled`
flag of the first pending task with that id: every non-queue field is
unchanged, the pending identities and their order are unchanged, and when
no pending task has the id — in particular when the id belongs to a
running task — the whole state is unchanged. -/
theorem C10_cancelTask_frame (s : QState) (i : String) :
    (cancelTask s i).concurrency = s.concurrency ∧
    (cancelTask s i).autoRun = s.autoRun ∧
    (cancelTask s i).running = s.running ∧
    (cancelTask s i).runningCount = s.runningCount ∧
    (cancelTask s i).paused = s.paused ∧
    (cancelTask s i).awaiting = s.awaiting ∧
    (cancelTask s i).timers = s.timers ∧
    (cancelTask s i).settled = s.settled ∧
    (cancelTask s i).nextTid = s.nextTid ∧
    (cancelTask s i).fnCalls = s.fnCalls ∧
    getQueued (cancelTask s i) = getQueued s ∧
    ((∃ pre t post, s.queue = pre ++ t :: post ∧ (∀ u ∈ pre, u.id ≠ i) ∧
        t.id = i ∧
        (cancelTask s i).queue = pre ++ { t with canceled := true } :: post) ∨
      ((∀ u ∈ s.queue, u.id ≠ i) ∧ cancelTask s i = s)) := by
  refine ⟨rfl, rfl, rfl, rfl, rfl, rfl, rfl, rfl, rfl, rfl, ?_, ?_⟩
  · simp [getQueued, cancelTask, markCanceledFirst_map_id]
  · rcases markCanceledFirst_split s.queue i with
      ⟨pre, t, post, hq, hpre, ht, hmark⟩ | ⟨hall, hmark⟩
    · exact Or.inl ⟨pre, t, post, hq, hpre, ht, hmark⟩
    · refine Or.inr ⟨hall, ?_⟩
      show ({ s with queue := markCanceledFirst s.queue i } : QState) = s
      rw [hmark]

/-- `C10_cancelTask_frame` applied at a concrete state and id. -/
theorem C10_cancelTask_frame_witness :
    (cancelTask (initState 2 true) "z").running =
      (initState 2 true).running :=
  (C10_cancelTask_frame (initState 2 true) "z").2.2.1

/-- The sortedness part of `C3_priority_order` applied at a concrete
sorted list and task. -/
theorem C3_priority_order_witness :
    SortedByPriority (insertByPriority
      [{ id := "B", priority := 5, retries := 0, retryDelay := 10,
         canceled := false, tid := 1 }]
      { id := "C", priority := 2, retries := 0, retryDelay := 10,
        canceled := false, tid := 2 }) :=
  C3_priority_order.1 _ _ (by simp [SortedByPriority])

end AsyncQueue
